import Mathlib

/-!
Verification of the billing application (single source file app.py):
schema normalization, sequence allocation, ledger reconciliation,
proration / rounding and the number-to-words converter, shallowly
embedded over lists and exact rational arithmetic.

Python floats are modelled by rationals, Python round (half to even)
by an explicit function, spreadsheet tables by lists of rows of
strings, and Python dicts by association lists in insertion order.
-/

/-- Drop the elements satisfying p from both ends of a list. -/
def trimList {α : Type} (p : α → Bool) (l : List α) : List α :=
  ((l.dropWhile p).reverse.dropWhile p).reverse

/-- Python str.strip, restricted to whitespace characters. -/
def pstrip (s : String) : String :=
  String.mk (trimList Char.isWhitespace s.data)

/-- Python str.lower on the character list (ASCII lowering). -/
def plower (s : String) : String := String.mk (s.data.map Char.toLower)

/-- Value of a list of decimal digit characters, most significant first,
    as in Python int parsing of a digit string. -/
def natOfDigits (cs : List Char) : Nat :=
  cs.foldl (fun n c => n * 10 + (c.toNat - 48)) 0

/-- Python round to the nearest integer, ties to even (banker rounding),
    as applied by round(x) and round(x, 0) on an exactly represented value. -/
def roundHalfEven (q : ℚ) : ℤ :=
  if q - Int.floor q < 1/2 then Int.floor q
  else if 1/2 < q - Int.floor q then Int.floor q + 1
  else if (Int.floor q) % 2 = 0 then Int.floor q else Int.floor q + 1

/-- Two decimal digits with a leading zero, for the fraction part of a
    fixed two-decimal rendering. -/
def pad2 (n : ℤ) : String :=
  if n < 10 then "0" ++ toString n else toString n

/-- Render a scaled integer value n of hundredths as a fixed two-decimal
    numeral with an optional sign. -/
def fmt2Scaled (n : ℤ) : String :=
  if n < 0 then "-" ++ (toString ((-n) / 100) ++ "." ++ pad2 ((-n) % 100))
  else toString (n / 100) ++ "." ++ pad2 (n % 100)

/-- Python f-string formatting of a numeric value with two decimals, as in
    "{:.2f}".format: round the value scaled by 100 to an integer of
    hundredths and render it. -/
def fmt2 (q : ℚ) : String :=
  fmt2Scaled (roundHalfEven (q * 100))

/-! ## Number-to-words converter (_num_words, app.py lines 437-455) -/

/-- The units table of _num_words. -/
def units : List String :=
  ["", "One", "Two", "Three", "Four", "Five", "Six", "Seven", "Eight", "Nine",
   "Ten", "Eleven", "Twelve", "Thirteen", "Fourteen", "Fifteen", "Sixteen",
   "Seventeen", "Eighteen", "Nineteen"]

/-- The tens table of _num_words. -/
def tens : List String :=
  ["", "Ten", "Twenty", "Thirty", "Forty", "Fifty", "Sixty", "Seventy",
   "Eighty", "Ninety"]

/-- Helper two of _num_words: words for a value below one hundred. -/
def two (x : Nat) : String :=
  if x < 20 then units.getD x ""
  else tens.getD (x / 10) "" ++
    (if x % 10 ≠ 0 then " " ++ units.getD (x % 10) "" else "")

/-- Helper three of _num_words: words for a value below one thousand. -/
def three (x : Nat) : String :=
  let h := x / 100
  let r := x % 100
  if h ≠ 0 ∧ r ≠ 0 then pstrip (units.getD h "" ++ " Hundred " ++ two r)
  else if h ≠ 0 then units.getD h "" ++ " Hundred"
  else two r

/-- Split a character list into maximal nonempty non-whitespace runs, as
    Python str.split with no argument does. -/
def wordsAux : List Char → List Char → List String
  | [], acc => if acc.isEmpty then [] else [String.mk acc.reverse]
  | c :: cs, acc =>
    if c.isWhitespace then
      if acc.isEmpty then wordsAux cs [] else String.mk acc.reverse :: wordsAux cs []
    else wordsAux cs (c :: acc)

/-- Join words with single spaces, as " ".join does. -/
def joinList : List String → String
  | [] => ""
  | [w] => w
  | w :: x :: ws => w ++ " " ++ joinList (x :: ws)

/-- Collapse whitespace runs and outer whitespace, as the final
    join of the split words does in _num_words. -/
def joinWords (s : String) : String :=
  joinList (wordsAux s.data [])

/-- _num_words: nonnegative integer to English words with Indian grouping
    (crore, lakh, thousand, hundred). -/
def _num_words (n : Nat) : String :=
  if n = 0 then "Zero"
  else
    let cr := n / 10000000
    let n1 := n % 10000000
    let la := n1 / 100000
    let n2 := n1 % 100000
    let th := n2 / 1000
    let n3 := n2 % 1000
    let s := (if cr ≠ 0 then three cr ++ " Crore " else "")
          ++ (if la ≠ 0 then three la ++ " Lakh " else "")
          ++ (if th ≠ 0 then three th ++ " Thousand " else "")
          ++ (if n3 ≠ 0 then three n3 else "")
    joinWords s

/-! ## Sequence allocator (get_next_invoice_number / get_next_challan_number,
app.py lines 278-304).  The worksheet read is modelled by an Option: none
stands for the read raising, some raws for the list of number-field values
of the records, each already coerced to a string by str(...). -/

/-- Candidate numeric value of one raw number field: the whole value if it
    is purely made of digits, otherwise its trailing run of digits if any. -/
def numberCandidate (raw : String) : Option Nat :=
  let r := pstrip raw
  if !r.data.isEmpty && r.data.all Char.isDigit then some (natOfDigits r.data)
  else
    let td := (r.data.reverse.takeWhile Char.isDigit).reverse
    if td.isEmpty then none else some (natOfDigits td)

/-- The shared scan of both next-number functions: fold a running maximum
    over the candidates, then add one, defaulting to "1". -/
def nextNumberCore (raws : List String) : String :=
  let maxNum := raws.foldl
    (fun m raw =>
      match numberCandidate raw with
      | some n => if n > m then n else m
      | none => m) 0
  if maxNum > 0 then toString (maxNum + 1) else "1"

/-- get_next_invoice_number over the Invoice_Number fields; none models an
    unreadable table (the except branch). -/
def get_next_invoice_number (sheet : Option (List String)) : String :=
  match sheet with
  | none => "1"
  | some raws => nextNumberCore raws

/-- get_next_challan_number over the Challan_Number fields; none models an
    unreadable table (the except branch). -/
def get_next_challan_number (sheet : Option (List String)) : String :=
  match sheet with
  | none => "1"
  | some raws => nextNumberCore raws

/-- The allocator contract as the specification states it: str of the
    maximum candidate plus one when some candidate is positive, else "1". -/
def specNextNumber (raws : List String) : String :=
  let cands := raws.filterMap numberCandidate
  if cands.any (fun n => 0 < n) then toString (cands.foldl max 0 + 1) else "1"

lemma step_eq_max (m n : Nat) : (if n > m then n else m) = max m n := by
  rcases Nat.lt_or_ge m n with h | h
  · simp [h, Nat.max_eq_right (Nat.le_of_lt h)]
  · simp [Nat.not_lt.mpr h, Nat.max_eq_left h]

lemma foldl_candidates (raws : List String) (m : Nat) :
    raws.foldl
      (fun m raw =>
        match numberCandidate raw with
        | some n => if n > m then n else m
        | none => m) m
      = (raws.filterMap numberCandidate).foldl max m := by
  induction raws generalizing m with
  | nil => rfl
  | cons a l ih =>
    simp only [List.foldl_cons, List.filterMap_cons]
    cases h : numberCandidate a with
    | none => simpa [h] using ih m
    | some n =>
      simp only [h, List.foldl_cons]
      rw [step_eq_max]
      exact ih (max m n)

lemma foldl_max_pos (l : List Nat) (m : Nat) :
    0 < l.foldl max m ↔ 0 < m ∨ ∃ n ∈ l, 0 < n := by
  induction l generalizing m with
  | nil => simp
  | cons a l ih =>
    simp only [List.foldl_cons, ih, lt_max_iff, List.mem_cons]
    constructor
    · rintro ((h | h) | ⟨n, hn, h⟩)
      · exact Or.inl h
      · exact Or.inr ⟨a, Or.inl rfl, h⟩
      · exact Or.inr ⟨n, Or.inr hn, h⟩
    · rintro (h | ⟨n, (rfl | hn), h⟩)
      · exact Or.inl (Or.inl h)
      · exact Or.inl (Or.inr h)
      · exact Or.inr ⟨n, hn, h⟩

/-- C4. The next-number functions scan candidates (whole numeric values, or
    trailing digit runs), returning str(max + 1) when some candidate is
    positive and "1" otherwise; an unreadable ledger also yields "1"; and
    ledger numbers ["3", "inv-7", "x"] yield "8". -/
theorem C4_sequence_allocator :
    (∀ raws : List String,
        get_next_invoice_number (some raws) = specNextNumber raws ∧
        get_next_challan_number (some raws) = specNextNumber raws) ∧
    get_next_invoice_number none = "1" ∧
    get_next_challan_number none = "1" ∧
    get_next_invoice_number (some ["3", "inv-7", "x"]) = "8" := by
  refine ⟨fun raws => ?_, rfl, rfl, by decide⟩
  have hcore : nextNumberCore raws = specNextNumber raws := by
    unfold nextNumberCore specNextNumber
    rw [foldl_candidates]
    by_cases h : (raws.filterMap numberCandidate).any (fun n => 0 < n) = true
    · have hex : ∃ n ∈ raws.filterMap numberCandidate, 0 < n := by
        rw [List.any_eq_true] at h
        obtain ⟨n, hn, hp⟩ := h
        exact ⟨n, hn, of_decide_eq_true hp⟩
      have hp : 0 < (raws.filterMap numberCandidate).foldl max 0 :=
        (foldl_max_pos _ 0).mpr (Or.inr hex)
      simp [h, hp]
    · have hex : ¬ ∃ n ∈ raws.filterMap numberCandidate, 0 < n := by
        rintro ⟨n, hn, hp⟩
        exact h (List.any_eq_true.mpr ⟨n, hn, decide_eq_true hp⟩)
      have hp : ¬ 0 < (raws.filterMap numberCandidate).foldl max 0 := by
        rw [foldl_max_pos]
        simp only [Nat.lt_irrefl, false_or]
        exact hex
      simp [h, hp]
  exact ⟨hcore, hcore⟩

/-- C9. The number-to-words converter on the specified sample points. -/
theorem C9_num_words :
    _num_words 0 = "Zero" ∧
    _num_words 100000 = "One Lakh" ∧
    _num_words 1234567 =
      "Twelve Lakh Thirty Four Thousand Five Hundred Sixty Seven" := by
  refine ⟨rfl, by decide, by decide⟩

/-! ## Invoice items and the proration / rounding module
(invoice route, app.py lines 1393-1446; totals mirror draw_invoice_pdf).
An item is the list [ch, d, sac, q, r, a] built at line 1401. -/

/-- One validated invoice line item: challan back-reference, description,
    SAC code, quantity, rate and line amount. -/
structure InvItem where
  ch : String
  d : String
  sac : String
  q : ℚ
  r : ℚ
  a : ℚ
deriving DecidableEq

/-- GST_TOTAL with its shipped default of 5.0 percent. -/
def GST_TOTAL : ℚ := 5

/-- CGST_RATE = GST_TOTAL / 2. -/
def CGST_RATE : ℚ := GST_TOTAL / 2

/-- SGST_RATE = GST_TOTAL / 2. -/
def SGST_RATE : ℚ := GST_TOTAL / 2

/-- sub_total: sum of the line amounts. -/
def sub_total (items : List InvItem) : ℚ := (items.map (fun it => it.a)).sum

/-- gross_all: the document taxable amount max(sub_total - discount, 0). -/
def gross_all (items : List InvItem) (discount : ℚ) : ℚ :=
  max (sub_total items - discount) 0

/-- cgst_all: CGST on the document taxable amount. -/
def cgst_all (items : List InvItem) (discount : ℚ) : ℚ :=
  gross_all items discount * (CGST_RATE / 100)

/-- sgst_all: SGST on the document taxable amount. -/
def sgst_all (items : List InvItem) (discount : ℚ) : ℚ :=
  gross_all items discount * (SGST_RATE / 100)

/-- rounded_total: the document grand total, round to the nearest unit of
    taxable plus both tax legs. -/
def rounded_total (items : List InvItem) (discount : ℚ) : ℤ :=
  roundHalfEven (gross_all items discount + cgst_all items discount +
    sgst_all items discount)

/-- round_off_total: the document rounding remainder. -/
def round_off_total (items : List InvItem) (discount : ℚ) : ℚ :=
  (rounded_total items discount : ℚ) -
    (gross_all items discount + cgst_all items discount + sgst_all items discount)

/-- share: this line's fraction of the sub total (0 on an all-zero invoice). -/
def row_share (items : List InvItem) (it : InvItem) : ℚ :=
  if 0 < sub_total items then it.a / sub_total items else 0

/-- row_discount: the prorated discount of one line. -/
def row_discount (items : List InvItem) (discount : ℚ) (it : InvItem) : ℚ :=
  discount * row_share items it

/-- row_taxable: the prorated taxable amount of one line, floored at 0. -/
def row_taxable (items : List InvItem) (discount : ℚ) (it : InvItem) : ℚ :=
  max (it.a - row_discount items discount it) 0

/-- row_cgst: CGST leg of one line. -/
def row_cgst (items : List InvItem) (discount : ℚ) (it : InvItem) : ℚ :=
  row_taxable items discount it * (CGST_RATE / 100)

/-- row_sgst: SGST leg of one line. -/
def row_sgst (items : List InvItem) (discount : ℚ) (it : InvItem) : ℚ :=
  row_taxable items discount it * (SGST_RATE / 100)

/-- row_round: the whole rounding remainder on the last line, 0 elsewhere. -/
def row_round (items : List InvItem) (discount : ℚ) (i : Nat) : ℚ :=
  if i = items.length - 1 then round_off_total items discount else 0

/-- row_gross: taxable plus both tax legs plus the last-line remainder. -/
def row_gross (items : List InvItem) (discount : ℚ) (i : Nat) (it : InvItem) : ℚ :=
  row_taxable items discount it + row_cgst items discount it +
    row_sgst items discount it + row_round items discount i

/-- One appended Invoice ledger row (append_row_to_invoice argument at
    app.py lines 1427-1446); Grand_Total is logged as int(round(...)). -/
structure InvoiceLedgerRow where
  firm : String
  created : String
  invDate : String
  invNo : String
  supCode : String
  supName : String
  gstNo : String
  chNo : String
  desc : String
  qty : String
  amount : String
  taxable : String
  discountCell : String
  gstPct : String
  cgst : String
  sgst : String
  roundOff : String
  grandTotal : ℤ
deriving DecidableEq

/-- The ledger append loop of the invoice route: one row per validated
    item, with prorated figures and the integer Grand_Total. -/
def invoiceLedgerRows (firm created invDt invNo supCode supName gstNo : String)
    (items : List InvItem) (discount : ℚ) : List InvoiceLedgerRow :=
  items.mapIdx (fun i it =>
    { firm := firm, created := created, invDate := invDt, invNo := invNo,
      supCode := supCode, supName := supName, gstNo := gstNo,
      chNo := it.ch, desc := it.d, qty := fmt2 it.q, amount := fmt2 it.a,
      taxable := fmt2 (row_taxable items discount it),
      discountCell := fmt2 (row_discount items discount it),
      gstPct := toString (roundHalfEven GST_TOTAL) ++ "%",
      cgst := fmt2 (row_cgst items discount it),
      sgst := fmt2 (row_sgst items discount it),
      roundOff := fmt2 (row_round items discount i),
      grandTotal := roundHalfEven (row_gross items discount i it) })

lemma sum_mapIdx_last {α : Type} (g : α → ℚ) (c : ℚ) :
    ∀ l : List α, l ≠ [] →
      (l.mapIdx (fun i x => g x + if i = l.length - 1 then c else 0)).sum
        = (l.map g).sum + c := by
  intro l
  induction l with
  | nil => intro h; exact absurd rfl h
  | cons a l ih =>
    intro _
    cases l with
    | nil => simp [List.mapIdx_cons]
    | cons b m =>
      rw [List.mapIdx_cons]
      have hfn : (fun (i : Nat) (x : α) =>
          g x + if i + 1 = (a :: b :: m).length - 1 then c else 0)
          = fun (i : Nat) (x : α) =>
          g x + if i = (b :: m).length - 1 then c else 0 := by
        funext i x
        have h1 : (i + 1 = (a :: b :: m).length - 1) ↔ (i = (b :: m).length - 1) := by
          simp only [List.length_cons]
          omega
        rw [if_congr h1 rfl rfl]
      have hhead : ¬ ((0 : Nat) = (a :: b :: m).length - 1) := by
        simp only [List.length_cons]
        omega
      rw [if_neg hhead, hfn]
      have hih := ih (by simp)
      simp only [List.sum_cons, List.map_cons] at hih ⊢
      rw [hih]
      ring

lemma sum_row_taxable (items : List InvItem) (D : ℚ)
    (hS : 0 < sub_total items) (hDS : D ≤ sub_total items)
    (ha : ∀ it ∈ items, 0 ≤ it.a) :
    (items.map (row_taxable items D)).sum = sub_total items - D := by
  have hS0 : sub_total items ≠ 0 := ne_of_gt hS
  have hmap : items.map (row_taxable items D)
      = items.map (fun it => it.a * (1 - D / sub_total items)) := by
    apply List.map_congr_left
    intro it hit
    have hd1 : D / sub_total items ≤ 1 := (div_le_one hS).mpr hDS
    have hnn : 0 ≤ it.a * (1 - D / sub_total items) :=
      mul_nonneg (ha it hit) (by linarith)
    unfold row_taxable row_discount row_share
    rw [if_pos hS]
    have heq : it.a - D * (it.a / sub_total items)
        = it.a * (1 - D / sub_total items) := by
      field_simp
      ring
    rw [heq, max_eq_left hnn]
  rw [hmap, List.sum_map_mul_right]
  have hsub : (items.map fun it => it.a).sum = sub_total items := rfl
  rw [hsub]
  field_simp

/-- C5. With line amounts nonnegative, a positive sub total S and a discount
    0 ≤ D ≤ S, the prorated per-line taxable amounts of the invoice logging
    loop sum to S - D (equivalently, to the document taxable amount). -/
theorem C5_discount_proration (items : List InvItem) (D : ℚ)
    (hD0 : 0 ≤ D) (hS : 0 < sub_total items) (hDS : D ≤ sub_total items)
    (ha : ∀ it ∈ items, 0 ≤ it.a) :
    (items.map (row_taxable items D)).sum + D = sub_total items ∧
    (items.map (row_taxable items D)).sum = gross_all items D := by
  have h := sum_row_taxable items D hS hDS ha
  refine ⟨by rw [h]; ring, ?_⟩
  rw [h]
  unfold gross_all
  rw [max_eq_left (by linarith)]

/-- Concrete invoice items for the C5 witness: amounts 6 and 4, discount 5. -/
def c5items : List InvItem :=
  [⟨"", "x", "s", 2, 3, 6⟩, ⟨"", "y", "s", 1, 4, 4⟩]

/-- Witness for C5 at a concrete invoice: S = 10, D = 5. -/
theorem C5_discount_proration_witness :
    (c5items.map (row_taxable c5items 5)).sum + 5 = sub_total c5items ∧
    (c5items.map (row_taxable c5items 5)).sum = gross_all c5items 5 :=
  C5_discount_proration c5items 5 (by norm_num)
    (by norm_num [sub_total, c5items])
    (by norm_num [sub_total, c5items])
    (by
      intro it hit
      simp only [c5items, List.mem_cons, List.not_mem_nil, or_false] at hit
      rcases hit with rfl | rfl <;> norm_num)

/-- Two valid line items of amount 10 each with no discount: each per-line
    gross is 10.50, the document gross is 21. -/
def c1items : List InvItem :=
  [⟨"", "A", "s", 1, 10, 10⟩, ⟨"", "B", "s", 1, 10, 10⟩]

/-- C1 counterexample.  On two valid items of amount 10 with discount 0 the
    stored per-line Grand_Total values are int(round(10.5)) = 10 twice, so
    they sum to 20, while the document grand total round(gross) is 21: the
    claimed rounding invariant fails for the values written to the ledger. -/
theorem C1_counterexample :
    ((invoiceLedgerRows "F" "c" "d" "1" "S" "N" "G" c1items 0).map
        (fun row => row.grandTotal)).sum = 20 ∧
    rounded_total c1items 0 = 21 ∧
    ¬ ((invoiceLedgerRows "F" "c" "d" "1" "S" "N" "G" c1items 0).map
        (fun row => row.grandTotal)).sum = rounded_total c1items 0 := by
  simp only [invoiceLedgerRows, c1items, List.mapIdx_cons, List.mapIdx_nil,
    List.map_cons, List.map_nil, List.sum_cons, List.sum_nil, rounded_total,
    round_off_total, row_gross, row_taxable, row_discount, row_share, row_cgst,
    row_sgst, row_round, gross_all, cgst_all, sgst_all, sub_total, CGST_RATE,
    SGST_RATE, GST_TOTAL, List.length_cons, List.length_nil]
  norm_num [roundHalfEven]

lemma sum_row_taxable_general (items : List InvItem) (D : ℚ)
    (hD0 : 0 ≤ D) (ha : ∀ it ∈ items, 0 ≤ it.a) :
    (items.map (row_taxable items D)).sum = gross_all items D := by
  by_cases hS : 0 < sub_total items
  · by_cases hDS : D ≤ sub_total items
    · rw [sum_row_taxable items D hS hDS ha]
      unfold gross_all
      rw [max_eq_left (by linarith)]
    · push_neg at hDS
      have hS0 : sub_total items ≠ 0 := ne_of_gt hS
      have hmap : items.map (row_taxable items D)
          = items.map (fun _ => (0 : ℚ)) := by
        apply List.map_congr_left
        intro it hit
        unfold row_taxable row_discount row_share
        rw [if_pos hS]
        have hfrac : 1 < D / sub_total items := (one_lt_div hS).mpr hDS
        have hle : it.a - D * (it.a / sub_total items) ≤ 0 := by
          have heq : it.a - D * (it.a / sub_total items)
              = it.a * (1 - D / sub_total items) := by
            field_simp
            ring
          rw [heq]
          exact mul_nonpos_of_nonneg_of_nonpos (ha it hit) (by linarith)
        exact max_eq_right hle
      rw [hmap]
      have hz : (items.map (fun _ => (0 : ℚ))).sum = 0 := by simp
      rw [hz]
      unfold gross_all
      rw [max_eq_right (by linarith)]
  · have hnn : 0 ≤ sub_total items := by
      unfold sub_total
      apply List.sum_nonneg
      intro x hx
      obtain ⟨it, hit, rfl⟩ := List.mem_map.mp hx
      exact ha it hit
    have hS0 : sub_total items = 0 := le_antisymm (not_lt.mp hS) hnn
    have hmap : items.map (row_taxable items D)
        = items.map (fun it => it.a) := by
      apply List.map_congr_left
      intro it hit
      unfold row_taxable row_discount row_share
      rw [if_neg hS, mul_zero, sub_zero]
      exact max_eq_left (ha it hit)
    rw [hmap]
    show sub_total items = gross_all items D
    unfold gross_all
    rw [hS0]
    rw [max_eq_right (by linarith)]

/-- C1 amended.  For every discount D ≥ 0 and nonnegative line amounts, the
    exact per-line gross amounts (taxable plus both tax legs plus, on the
    last line, the rounding remainder) sum exactly to the document grand
    total round(gross); the claim fails only in that the ledger stores
    int(round(...)) of each line, which can drift. -/
theorem C1_amended (items : List InvItem) (D : ℚ)
    (hD0 : 0 ≤ D) (ha : ∀ it ∈ items, 0 ≤ it.a) (hlen : items.length ≤ 10) :
    (items.mapIdx (fun i it => row_gross items D i it)).sum
      = (rounded_total items D : ℚ) := by
  by_cases hne : items = []
  · subst hne
    simp only [List.mapIdx_nil, List.sum_nil]
    have hga : gross_all [] D = 0 := by
      unfold gross_all sub_total
      simp only [List.map_nil, List.sum_nil, zero_sub]
      exact max_eq_right (by linarith)
    unfold rounded_total cgst_all sgst_all
    rw [hga]
    norm_num [roundHalfEven]
  · have hfn : (fun (i : Nat) (it : InvItem) => row_gross items D i it)
        = fun (i : Nat) (it : InvItem) =>
          (row_taxable items D it + row_cgst items D it + row_sgst items D it)
            + if i = items.length - 1 then round_off_total items D else 0 := by
      funext i it
      unfold row_gross row_round
      ring
    rw [hfn]
    rw [sum_mapIdx_last
      (fun it => row_taxable items D it + row_cgst items D it + row_sgst items D it)
      (round_off_total items D) items hne]
    have hsplit : (fun (it : InvItem) =>
        row_taxable items D it + row_cgst items D it + row_sgst items D it)
        = fun it => row_taxable items D it * (1 + CGST_RATE/100 + SGST_RATE/100) := by
      funext it
      unfold row_cgst row_sgst
      ring
    rw [hsplit, List.sum_map_mul_right, sum_row_taxable_general items D hD0 ha]
    unfold round_off_total cgst_all sgst_all
    ring

/-- Witness for C1 amended on the two concrete items: 10.5 + 10.5 = 21. -/
theorem C1_amended_witness :
    (c1items.mapIdx (fun i it => row_gross c1items 0 i it)).sum
      = (rounded_total c1items 0 : ℚ) :=
  C1_amended c1items 0 (by norm_num)
    (by
      intro it hit
      simp only [c1items, List.mem_cons, List.not_mem_nil, or_false] at hit
      rcases hit with rfl | rfl <;> norm_num)
    (by norm_num [c1items])

/-! ## Route input validation and row caps
(challan route lines 1301-1324 and invoice route lines 1388-1407).
A raw form line carries the posted strings with the numeric fields already
parsed: none models a float(...) call that raises. -/

/-- INV_MAX_ROWS = 10. -/
def INV_MAX_ROWS : Nat := 10

/-- CH_MAX_ROWS = 5. -/
def CH_MAX_ROWS : Nat := 5

/-- SAC_DEFAULT with its shipped default. -/
def SAC_DEFAULT : String := "123456"

/-- A posted challan line: description plus the parse results of qty, rate. -/
structure RawChLine where
  desc : String
  qty : Option ℚ
  rate : Option ℚ
deriving DecidableEq

/-- A posted invoice line: challan number, description, parses of qty, rate. -/
structure RawInvLine where
  ch : String
  desc : String
  qty : Option ℚ
  rate : Option ℚ
deriving DecidableEq

/-- One validated challan item [d.strip(), qf, rf, qf * rf]. -/
structure ChallanItem where
  desc : String
  q : ℚ
  r : ℚ
  a : ℚ
deriving DecidableEq

/-- The challan route filter: drop lines with a blank description, a failed
    parse, a non-positive quantity or a negative rate. -/
def challanItems (lines : List RawChLine) : List ChallanItem :=
  lines.filterMap (fun l =>
    if pstrip l.desc = "" then none
    else
      match l.qty, l.rate with
      | some qf, some rf =>
        if qf ≤ 0 ∨ rf < 0 then none
        else some ⟨pstrip l.desc, qf, rf, qf * rf⟩
      | _, _ => none)

/-- The invoice route filter: same validation, building
    [ch.strip(), d.strip(), sac_global, qf, rf, qf * rf]. -/
def invoiceItems (sacGlobal : String) (lines : List RawInvLine) : List InvItem :=
  lines.filterMap (fun l =>
    if pstrip l.desc = "" then none
    else
      match l.qty, l.rate with
      | some qf, some rf =>
        if qf ≤ 0 ∨ rf < 0 then none
        else some ⟨pstrip l.ch, pstrip l.desc, sacGlobal, qf, rf, qf * rf⟩
      | _, _ => none)

/-- A line whose quantity and rate both parse, with qty positive and
    rate nonnegative (the validation the specification describes). -/
def chLineOK (l : RawChLine) : Bool :=
  match l.qty, l.rate with
  | some qf, some rf => decide (0 < qf) && decide (0 ≤ rf)
  | _, _ => false

/-- Same validation predicate for invoice lines. -/
def invLineOK (l : RawInvLine) : Bool :=
  match l.qty, l.rate with
  | some qf, some rf => decide (0 < qf) && decide (0 ≤ rf)
  | _, _ => false

/-- The challan POST form fields feeding the ledger append loop. -/
structure ChallanForm where
  firm : String
  created : String
  chDt : String
  chNo : String
  supChNo : String
  partyCode : String
  partyName : String
  partyGstin : String
  lines : List RawChLine

/-- One row dict handed to append_row_to_challan by the challan route
    (lines 1329-1343); Amount logs the unit rate, Taxable_Amount the line
    total, and no INVOICE_MTR key is ever present. -/
def challanRowDict (f : ChallanForm) (it : ChallanItem) : List (String × String) :=
  [("Firm", f.firm), ("Createed_Date", f.created), ("Invoice_Date", f.chDt),
   ("Challan_Number", f.chNo), ("supplier_challan_number", f.supChNo),
   ("Supplier Code", f.partyCode), ("Supplier_Name", f.partyName),
   ("Gst_No", f.partyGstin), ("Description", it.desc), ("Qty", fmt2 it.q),
   ("Rate", fmt2 it.r), ("Amount", fmt2 it.r), ("Taxable_Amount", fmt2 it.a)]

/-- The challan POST outcome: either the validation rejection (no document,
    no ledger append) or the truncated layout items and the ledger rows. -/
def challan_post (f : ChallanForm) :
    Except String (List ChallanItem × List (List (String × String))) :=
  let items := challanItems f.lines
  if items.isEmpty then Except.error "Add at least one valid item."
  else Except.ok (items.take CH_MAX_ROWS, items.map (challanRowDict f))

/-- The invoice POST form fields feeding the ledger append loop. -/
structure InvoiceForm where
  firm : String
  created : String
  invDt : String
  invNo : String
  supCode : String
  supName : String
  supGstin : String
  sacGlobal : String
  discount : ℚ
  lines : List RawInvLine

/-- The invoice POST outcome: either the validation rejection or the
    truncated layout items and the full ledger rows. -/
def invoice_post (f : InvoiceForm) :
    Except String (List InvItem × List InvoiceLedgerRow) :=
  let items := invoiceItems f.sacGlobal f.lines
  if items.isEmpty then Except.error "Add at least one valid item."
  else Except.ok (items.take INV_MAX_ROWS,
    invoiceLedgerRows f.firm f.created f.invDt f.invNo f.supCode f.supName
      f.supGstin items f.discount)

lemma filterMap_filter_eq {α β : Type} (p : α → Bool) (f : α → Option β)
    (h : ∀ a, p a = false → f a = none) :
    ∀ l : List α, l.filterMap f = (l.filter p).filterMap f := by
  intro l
  induction l with
  | nil => rfl
  | cons a l ih =>
    cases hp : p a
    · rw [List.filterMap_cons, h a hp, List.filter_cons, hp]
      simpa using ih
    · rw [List.filter_cons, hp]
      simp only [if_true, List.filterMap_cons]
      rw [ih]

lemma challan_bad_line_none (l : RawChLine) (hl : chLineOK l = false) :
    (fun l : RawChLine =>
      if pstrip l.desc = "" then none
      else
        match l.qty, l.rate with
        | some qf, some rf =>
          if qf ≤ 0 ∨ rf < 0 then none
          else some (⟨pstrip l.desc, qf, rf, qf * rf⟩ : ChallanItem)
        | _, _ => none) l = none := by
  by_cases hd : pstrip l.desc = ""
  · simp [hd]
  · simp only [hd, if_false]
    unfold chLineOK at hl
    cases hq : l.qty with
    | none => simp [hq]
    | some qf =>
      cases hr : l.rate with
      | none => simp [hq, hr]
      | some rf =>
        rw [hq, hr] at hl
        simp only [Bool.and_eq_false_iff, decide_eq_false_iff_not, not_lt,
          not_le] at hl
        have : qf ≤ 0 ∨ rf < 0 := hl
        simp [hq, hr, this]

lemma invoice_bad_line_none (sac : String) (l : RawInvLine)
    (hl : invLineOK l = false) :
    (fun l : RawInvLine =>
      if pstrip l.desc = "" then none
      else
        match l.qty, l.rate with
        | some qf, some rf =>
          if qf ≤ 0 ∨ rf < 0 then none
          else some (⟨pstrip l.ch, pstrip l.desc, sac, qf, rf, qf * rf⟩ : InvItem)
        | _, _ => none) l = none := by
  by_cases hd : pstrip l.desc = ""
  · simp [hd]
  · simp only [hd, if_false]
    unfold invLineOK at hl
    cases hq : l.qty with
    | none => simp [hq]
    | some qf =>
      cases hr : l.rate with
      | none => simp [hq, hr]
      | some rf =>
        rw [hq, hr] at hl
        simp only [Bool.and_eq_false_iff, decide_eq_false_iff_not, not_lt,
          not_le] at hl
        have : qf ≤ 0 ∨ rf < 0 := hl
        simp [hq, hr, this]

/-- C7. Lines with an unparsable, non-positive quantity or an unparsable,
    negative rate never contribute an item (filtering to the valid lines
    first changes nothing), and a submission left with no valid item is
    rejected with the validation message - no document items and no ledger
    rows are produced - on both the challan and the invoice route. -/
theorem C7_validation_filter (cf : ChallanForm) (vf : InvoiceForm) :
    challanItems cf.lines = challanItems (cf.lines.filter chLineOK) ∧
    (challanItems cf.lines = [] ↔
      challan_post cf = Except.error "Add at least one valid item.") ∧
    invoiceItems vf.sacGlobal vf.lines
      = invoiceItems vf.sacGlobal (vf.lines.filter invLineOK) ∧
    (invoiceItems vf.sacGlobal vf.lines = [] ↔
      invoice_post vf = Except.error "Add at least one valid item.") := by
  refine ⟨?_, ?_, ?_, ?_⟩
  · exact filterMap_filter_eq chLineOK _ challan_bad_line_none cf.lines
  · unfold challan_post
    constructor
    · intro h
      rw [h]
      rfl
    · intro h
      by_cases he : (challanItems cf.lines).isEmpty
      · exact List.isEmpty_iff.mp he
      · rw [if_neg he] at h
        exact absurd h (by simp)
  · exact filterMap_filter_eq invLineOK _ (invoice_bad_line_none vf.sacGlobal)
      vf.lines
  · unfold invoice_post
    constructor
    · intro h
      rw [h]
      rfl
    · intro h
      by_cases he : (invoiceItems vf.sacGlobal vf.lines).isEmpty
      · exact List.isEmpty_iff.mp he
      · rw [if_neg he] at h
        exact absurd h (by simp)

/-! ## Invoice layout rows (draw_invoice_pdf item loop, app.py lines 709-722):
row r of the fixed 10-row grid is drawn only when r < len(items), from the
item list already truncated by the route to items[:INV_MAX_ROWS]. -/

/-- The cells drawn for one invoice item: challan number, description
    hard-truncated to 50 characters, SAC (defaulted), and the three
    two-decimal numeric cells. -/
def invRowCells (it : InvItem) : List String :=
  [it.ch, String.mk (it.d.data.take 50),
   (if it.sac = "" then SAC_DEFAULT else it.sac),
   fmt2 it.q, fmt2 it.r, fmt2 it.a]

/-- Default item used only as the (never reached) out-of-range value of an
    in-bounds list access. -/
def blankInvItem : InvItem := ⟨"", "", "", 0, 0, 0⟩

/-- The item rows the invoice layout loop draws: one per grid row r of
    range(INV_MAX_ROWS) with r < len(items). -/
def drawnInvoiceRows (items : List InvItem) : List (List String) :=
  (List.range INV_MAX_ROWS).filterMap (fun r =>
    if r < items.length then some (invRowCells (items.getD r blankInvItem))
    else none)

lemma range_filterMap_take {α β : Type} (f : α → β) (d : α) :
    ∀ (n : Nat) (l : List α),
      (List.range n).filterMap
        (fun r => if r < l.length then some (f (l.getD r d)) else none)
        = (l.take n).map f := by
  intro n
  induction n with
  | zero => intro l; simp
  | succ n ih =>
    intro l
    rw [List.range_succ_eq_map]
    cases l with
    | nil => simp
    | cons a l =>
      rw [List.filterMap_cons, List.filterMap_map]
      have h0 : (0 : Nat) < (a :: l).length := by simp
      rw [if_pos h0]
      have hfun : (fun r : Nat =>
          if Nat.succ r < (a :: l).length
          then some (f ((a :: l).getD (Nat.succ r) d)) else none)
          = fun r : Nat =>
          if r < l.length then some (f (l.getD r d)) else none := by
        funext r
        simp only [List.length_cons, Nat.succ_eq_add_one,
          Nat.add_lt_add_iff_right, List.getD_cons_succ]
      have hcomp : ((fun r : Nat =>
          if r < (a :: l).length then some (f ((a :: l).getD r d)) else none)
            ∘ Nat.succ)
          = fun r : Nat =>
          if r < l.length then some (f (l.getD r d)) else none := by
        funext r
        have := congrFun hfun r
        simpa using this
      rw [hcomp, ih l]
      simp [List.getD_cons_zero]

/-- C6. With more than INV_MAX_ROWS validated items, the layout receives
    items[:INV_MAX_ROWS] and draws exactly those first 10 items, while the
    ledger append loop emits one row per submitted item: the layout cap
    does not limit the ledger rows. -/
theorem C6_layout_truncation (items : List InvItem)
    (firm created invDt invNo supCode supName gstNo : String) (discount : ℚ)
    (h : INV_MAX_ROWS < items.length) :
    drawnInvoiceRows (items.take INV_MAX_ROWS)
      = (items.take INV_MAX_ROWS).map invRowCells ∧
    (items.take INV_MAX_ROWS).length = INV_MAX_ROWS ∧
    (invoiceLedgerRows firm created invDt invNo supCode supName gstNo
      items discount).length = items.length := by
  refine ⟨?_, ?_, ?_⟩
  · unfold drawnInvoiceRows
    rw [range_filterMap_take invRowCells blankInvItem INV_MAX_ROWS
      (items.take INV_MAX_ROWS), List.take_take]
    simp
  · rw [List.length_take]
    omega
  · unfold invoiceLedgerRows
    exact List.length_mapIdx

/-- Twelve identical valid items for the C6 witness. -/
def c6items : List InvItem := List.replicate 12 ⟨"1", "d", "s", 1, 1, 1⟩

/-- Witness for C6: submitting 12 valid items draws the first 10 and logs
    all 12 ledger rows. -/
theorem C6_layout_truncation_witness :
    drawnInvoiceRows (c6items.take INV_MAX_ROWS)
      = (c6items.take INV_MAX_ROWS).map invRowCells ∧
    (c6items.take INV_MAX_ROWS).length = INV_MAX_ROWS ∧
    (invoiceLedgerRows "F" "c" "d" "1" "S" "N" "G" c6items 0).length
      = c6items.length :=
  C6_layout_truncation c6items "F" "c" "d" "1" "S" "N" "G" 0 (by decide)

/-! ## Reconciliation engine (write_invoice_mtr_to_challan, app.py lines
362-400).  The challan worksheet is a list of rows of cell strings whose
first row is the header.  The function strips the header, appends an
INVOICE_MTR column when absent (also rewriting the stored header row),
collects one batch update per data row that matches some invoice item, and
applies the batch.  idx_lower keeps the last index per normalized header
name, as a Python dict comprehension does. -/

/-- Normalized header name: stripped and lowercased. -/
def normHdr (s : String) : String := plower (pstrip s)

/-- idx_lower lookup: the last column index whose normalized header equals
    the key (dict comprehension semantics, later entries overwrite). -/
def idx_lower_of (header : List String) (key : String) : Option Nat :=
  (List.range header.length).reverse.find?
    (fun i => normHdr (header.getD i "") == key)

/-- The row accessor get(colname) of the scan: the stripped cell under the
    column of that name, or the empty string. -/
def getCol (header : List String) (row : List String) (col : String) : String :=
  match idx_lower_of header (plower col) with
  | some i => if i < row.length then pstrip (row.getD i "") else ""
  | none => ""

/-- The stripped header list built from the stored header row. -/
def wimHeader0 (row0 : List String) : List String := row0.map pstrip

/-- Whether the stripped header already carries an invoice_mtr column. -/
def wimHasMtr (row0 : List String) : Bool :=
  (idx_lower_of (wimHeader0 row0) "invoice_mtr").isSome

/-- The working header: the stripped header, with INVOICE_MTR appended
    when absent. -/
def wimHeader (row0 : List String) : List String :=
  if wimHasMtr row0 then wimHeader0 row0 else wimHeader0 row0 ++ ["INVOICE_MTR"]

/-- The header row left stored in the sheet: untouched when invoice_mtr was
    present, else the stripped-and-extended working header. -/
def wimHeaderOut (row0 : List String) : List String :=
  if wimHasMtr row0 then row0 else wimHeader row0

/-- The 0-based invoice_mtr column of the working header. -/
def wimInvCol (row0 : List String) : Nat :=
  (idx_lower_of (wimHeader row0) "invoice_mtr").getD 0

/-- The per-row, per-item match of the scan: equal firm and supplier code,
    and trimmed-equal challan number and description. -/
def wimRowMatch (company scode : String) (header : List String)
    (row : List String) (it : InvItem) : Bool :=
  getCol header row "Firm" == company &&
  getCol header row "Supplier Code" == scode &&
  pstrip it.ch == pstrip (getCol header row "Challan_Number") &&
  pstrip it.d == pstrip (getCol header row "Description")

/-- The update collection loop: one (row, column, value) triple per data row
    matched by some item, the value being the first matching item's quantity
    at two decimals; row and column are 1-based. -/
def wimScan (company scode : String) (items : List InvItem)
    (header : List String) (invCol : Nat) :
    List (List String) → Nat → List (Nat × Nat × String)
  | [], _ => []
  | row :: rs, n =>
    (match items.find? (wimRowMatch company scode header row) with
     | some it => [(n, invCol + 1, fmt2 it.q)]
     | none => []) ++ wimScan company scode items header invCol rs (n + 1)

/-- Store a value into a 1-based cell of a row, padding with empty cells
    when the row is shorter than the target column. -/
def setCellInRow (row : List String) (c : Nat) (v : String) : List String :=
  if c - 1 < row.length then row.set (c - 1) v
  else (row ++ List.replicate (c - 1 - row.length) "") ++ [v]

/-- Store a value into a 1-based (row, column) cell of the sheet. -/
def setCellTable (vals : List (List String)) (r c : Nat) (v : String) :
    List (List String) :=
  vals.set (r - 1) (setCellInRow (vals.getD (r - 1) []) c v)

/-- Apply a batch of cell updates in order. -/
def applyUpdates (vals : List (List String))
    (upds : List (Nat × Nat × String)) : List (List String) :=
  upds.foldl (fun s u => setCellTable s u.1 u.2.1 u.2.2) vals

/-- write_invoice_mtr_to_challan: on an empty sheet do nothing, otherwise
    ensure the header, collect the batch updates over the data rows
    (1-based row numbers from 2) and apply them. -/
def write_invoice_mtr_to_challan (company scode : String)
    (items : List InvItem) : List (List String) → List (List String)
  | [] => []
  | row0 :: rest =>
    applyUpdates (wimHeaderOut row0 :: rest)
      (wimScan company scode items (wimHeader row0) (wimInvCol row0) rest 2)

/-- The effect of the scan-and-apply pass on one data row: a matched row has
    the first matching item's quantity stored in the invoice_mtr cell, an
    unmatched row is unchanged. -/
def wimRowMap (company scode : String) (items : List InvItem)
    (row0 : List String) (row : List String) : List String :=
  match items.find? (wimRowMatch company scode (wimHeader row0) row) with
  | some it => setCellInRow row (wimInvCol row0 + 1) (fmt2 it.q)
  | none => row

lemma dropWhile_dropWhile_self {α : Type} (p : α → Bool) (l : List α) :
    (l.dropWhile p).dropWhile p = l.dropWhile p := by
  cases h : l.dropWhile p with
  | nil => rfl
  | cons a t =>
    have hhead := List.head?_dropWhile_not p l
    rw [h] at hhead
    simp only [List.head?_cons] at hhead
    rw [List.dropWhile_cons_of_neg (by simp [hhead])]

lemma dropWhile_eq_self_of_head {α : Type} (p : α → Bool) (l : List α)
    (h : ∀ a, l.head? = some a → p a = false) : l.dropWhile p = l := by
  cases l with
  | nil => rfl
  | cons a t =>
    have := h a rfl
    rw [List.dropWhile_cons_of_neg (by simp [this])]

lemma getLast?_dropWhile {α : Type} (p : α → Bool) (l : List α) :
    l.dropWhile p = [] ∨ (l.dropWhile p).getLast? = l.getLast? := by
  induction l with
  | nil => exact Or.inl rfl
  | cons a t ih =>
    by_cases hp : p a
    · rw [List.dropWhile_cons_of_pos hp]
      cases t with
      | nil => exact Or.inl rfl
      | cons b u =>
        rcases ih with h | h
        · exact Or.inl h
        · right
          rw [List.getLast?_cons_cons]
          exact h
    · rw [List.dropWhile_cons_of_neg hp]
      exact Or.inr rfl

lemma trimList_idem {α : Type} (p : α → Bool) (l : List α) :
    trimList p (trimList p l) = trimList p l := by
  unfold trimList
  set A := l.dropWhile p with hA
  set B := A.reverse.dropWhile p with hB
  have h1 : B.reverse.dropWhile p = B.reverse := by
    apply dropWhile_eq_self_of_head
    intro a ha
    rw [List.head?_reverse] at ha
    rcases getLast?_dropWhile p A.reverse with h | h
    · rw [← hB] at h
      rw [h] at ha
      simp at ha
    · rw [← hB] at h
      rw [h, List.getLast?_reverse] at ha
      have hh := List.head?_dropWhile_not p l
      rw [← hA, ha] at hh
      exact hh
  rw [h1, List.reverse_reverse, hB, dropWhile_dropWhile_self]

lemma pstrip_idem (s : String) : pstrip (pstrip s) = pstrip s :=
  congrArg String.mk (trimList_idem Char.isWhitespace s.data)

lemma getD_append_len {α : Type} (pre : List α) (x : α) (rs : List α) (d : α) :
    (pre ++ x :: rs).getD pre.length d = x := by
  induction pre with
  | nil => rfl
  | cons a p ih =>
    simp only [List.cons_append, List.length_cons, List.getD_cons_succ]
    exact ih

lemma set_append_len {α : Type} (pre : List α) (x y : α) (rs : List α) :
    (pre ++ x :: rs).set pre.length y = pre ++ y :: rs := by
  induction pre with
  | nil => rfl
  | cons a p ih =>
    simp only [List.cons_append, List.length_cons, List.set_cons_succ]
    rw [ih]

lemma wimScan_apply (company scode : String) (items : List InvItem)
    (row0 : List String) :
    ∀ (rows pre : List (List String)),
      applyUpdates (pre ++ rows)
        (wimScan company scode items (wimHeader row0) (wimInvCol row0) rows
          (pre.length + 1))
      = pre ++ rows.map (wimRowMap company scode items row0) := by
  intro rows
  induction rows with
  | nil =>
    intro pre
    simp [wimScan, applyUpdates]
  | cons row rs ih =>
    intro pre
    cases hfind : items.find? (wimRowMatch company scode (wimHeader row0) row) with
    | some it =>
      simp only [wimScan, hfind, List.singleton_append, List.map_cons]
      simp only [applyUpdates, List.foldl_cons]
      have hstep : setCellTable (pre ++ row :: rs) (pre.length + 1)
          (wimInvCol row0 + 1) (fmt2 it.q)
          = pre ++ setCellInRow row (wimInvCol row0 + 1) (fmt2 it.q) :: rs := by
        unfold setCellTable
        simp only [Nat.add_sub_cancel]
        rw [getD_append_len, set_append_len]
      rw [hstep]
      have hres := ih (pre ++ [setCellInRow row (wimInvCol row0 + 1) (fmt2 it.q)])
      simp only [List.length_append, List.length_cons, List.length_nil,
        List.append_assoc, List.singleton_append, Nat.add_zero] at hres
      simp only [applyUpdates] at hres
      rw [hres]
      simp only [wimRowMap, hfind]
    | none =>
      simp only [wimScan, hfind, List.nil_append, List.map_cons]
      have hres := ih (pre ++ [row])
      simp only [List.length_append, List.length_cons, List.length_nil,
        List.append_assoc, List.singleton_append, Nat.add_zero] at hres
      simp only [applyUpdates] at hres
      simp only [applyUpdates]
      rw [hres]
      simp only [wimRowMap, hfind]

/-- The per-row form of a full reconciliation pass over a nonempty sheet:
    the stored header row, then every data row transformed by wimRowMap. -/
lemma wim_eq_map (company scode : String) (items : List InvItem)
    (row0 : List String) (rest : List (List String)) :
    write_invoice_mtr_to_challan company scode items (row0 :: rest)
      = wimHeaderOut row0 :: rest.map (wimRowMap company scode items row0) := by
  show applyUpdates ([wimHeaderOut row0] ++ rest)
      (wimScan company scode items (wimHeader row0) (wimInvCol row0) rest
        ([wimHeaderOut row0].length + 1))
    = [wimHeaderOut row0] ++ rest.map (wimRowMap company scode items row0)
  exact wimScan_apply company scode items row0 rest [wimHeaderOut row0]

lemma idx_lower_of_spec (header : List String) (key : String) (i : Nat)
    (h : idx_lower_of header key = some i) :
    i < header.length ∧ normHdr (header.getD i "") = key := by
  unfold idx_lower_of at h
  have hmem := List.mem_of_find?_eq_some h
  have hp := List.find?_some h
  refine ⟨?_, ?_⟩
  · exact List.mem_range.mp (List.mem_reverse.mp hmem)
  · exact eq_of_beq hp

lemma idx_lower_isSome_of (header : List String) (key : String) (i : Nat)
    (hi : i < header.length) (hkey : normHdr (header.getD i "") = key) :
    (idx_lower_of header key).isSome := by
  unfold idx_lower_of
  rw [List.find?_isSome]
  refine ⟨i, List.mem_reverse.mpr (List.mem_range.mpr hi), ?_⟩
  rw [hkey]
  exact beq_self_eq_true key

lemma pstrip_mtr : pstrip "INVOICE_MTR" = "INVOICE_MTR" := rfl

lemma wimHeader0_headerOut (row0 : List String) :
    wimHeader0 (wimHeaderOut row0) = wimHeader row0 := by
  unfold wimHeaderOut wimHeader
  cases h : wimHasMtr row0 with
  | true => simp [h]
  | false =>
    simp only [h, Bool.false_eq_true, if_false]
    unfold wimHeader0
    rw [List.map_append, List.map_map]
    have hmm : pstrip ∘ pstrip = pstrip := funext pstrip_idem
    have hpm : List.map pstrip ["INVOICE_MTR"] = ["INVOICE_MTR"] := rfl
    rw [hmm, hpm]

lemma wimHeader_hasMtr (row0 : List String) :
    (idx_lower_of (wimHeader row0) "invoice_mtr").isSome := by
  unfold wimHeader
  cases h : wimHasMtr row0 with
  | true =>
    rw [if_pos rfl]
    exact h
  | false =>
    simp only [h, Bool.false_eq_true, if_false]
    apply idx_lower_isSome_of _ _ (wimHeader0 row0).length
    · simp
    · have : ((wimHeader0 row0) ++ ["INVOICE_MTR"]).getD (wimHeader0 row0).length ""
          = "INVOICE_MTR" := getD_append_len _ _ _ _
      rw [this]
      rfl

lemma wimHasMtr_headerOut (row0 : List String) :
    wimHasMtr (wimHeaderOut row0) = true := by
  unfold wimHasMtr
  rw [wimHeader0_headerOut]
  exact wimHeader_hasMtr row0

lemma wimHeader_headerOut (row0 : List String) :
    wimHeader (wimHeaderOut row0) = wimHeader row0 := by
  calc wimHeader (wimHeaderOut row0)
      = wimHeader0 (wimHeaderOut row0) := by
        unfold wimHeader
        rw [if_pos (wimHasMtr_headerOut row0)]
    _ = wimHeader row0 := wimHeader0_headerOut row0

lemma wimInvCol_headerOut (row0 : List String) :
    wimInvCol (wimHeaderOut row0) = wimInvCol row0 := by
  unfold wimInvCol
  rw [wimHeader_headerOut]

lemma wimInvCol_spec (row0 : List String) :
    wimInvCol row0 < (wimHeader row0).length ∧
    normHdr ((wimHeader row0).getD (wimInvCol row0) "") = "invoice_mtr" := by
  obtain ⟨i, hi⟩ := Option.isSome_iff_exists.mp (wimHeader_hasMtr row0)
  have hspec := idx_lower_of_spec _ _ _ hi
  unfold wimInvCol
  rw [hi]
  simpa using hspec

lemma getCol_setCellInRow (header : List String) (row : List String) (j : Nat)
    (v : String) (col : String)
    (hne : ∀ i, idx_lower_of header (plower col) = some i → i ≠ j) :
    getCol header (setCellInRow row (j + 1) v) col = getCol header row col := by
  unfold getCol
  cases hidx : idx_lower_of header (plower col) with
  | none => rfl
  | some i =>
    have hij : i ≠ j := hne i hidx
    unfold setCellInRow
    simp only [Nat.add_sub_cancel]
    by_cases hj : j < row.length
    · rw [if_pos hj, List.length_set]
      by_cases hi : i < row.length
      · rw [if_pos hi, if_pos hi]
        congr 1
        simp only [List.getD_eq_getElem?_getD]
        rw [List.getElem?_set_ne (Ne.symm hij)]
      · rw [if_neg hi, if_neg hi]
    · rw [if_neg hj]
      have hlen : ((row ++ List.replicate (j - row.length) "") ++ [v]).length
          = j + 1 := by
        simp only [List.length_append, List.length_replicate, List.length_cons,
          List.length_nil]
        omega
      rw [hlen]
      by_cases hi : i < row.length
      · have hi2 : i < j + 1 := by omega
        rw [if_pos hi2, if_pos hi]
        congr 1
        simp only [List.getD_eq_getElem?_getD]
        rw [List.getElem?_append_left (by
          simp only [List.length_append, List.length_replicate]
          omega)]
        rw [List.getElem?_append_left hi]
      · rw [if_neg hi]
        by_cases hi2 : i < j + 1
        · rw [if_pos hi2]
          have hval : (((row ++ List.replicate (j - row.length) "") ++ [v])).getD i ""
              = "" := by
            simp only [List.getD_eq_getElem?_getD]
            rw [List.getElem?_append_left (by
              simp only [List.length_append, List.length_replicate]
              omega)]
            rw [List.getElem?_append_right (le_of_not_lt hi)]
            rw [List.getElem?_replicate, if_pos (by omega)]
            rfl
          rw [hval]
          rfl
        · rw [if_neg hi2]

lemma wimRowMatch_rowMap (company scode : String) (items : List InvItem)
    (row0 : List String) (row : List String) :
    wimRowMatch company scode (wimHeader row0)
        (wimRowMap company scode items row0 row)
      = wimRowMatch company scode (wimHeader row0) row := by
  funext it
  unfold wimRowMap
  cases hfind : items.find? (wimRowMatch company scode (wimHeader row0) row) with
  | none => rfl
  | some it0 =>
    unfold wimRowMatch
    have hcol : ∀ col : String, plower col ≠ "invoice_mtr" →
        getCol (wimHeader row0)
            (setCellInRow row (wimInvCol row0 + 1) (fmt2 it0.q)) col
          = getCol (wimHeader row0) row col := by
      intro col hc
      apply getCol_setCellInRow
      intro i hi hieq
      have h1 := idx_lower_of_spec _ _ _ hi
      have h2 := wimInvCol_spec row0
      rw [hieq] at h1
      exact hc (h1.2.symm.trans h2.2)
    rw [hcol "Firm" (by decide), hcol "Supplier Code" (by decide),
      hcol "Challan_Number" (by decide), hcol "Description" (by decide)]

lemma setCellInRow_idem (row : List String) (j : Nat) (v : String) :
    setCellInRow (setCellInRow row (j + 1) v) (j + 1) v
      = setCellInRow row (j + 1) v := by
  unfold setCellInRow
  simp only [Nat.add_sub_cancel]
  by_cases hj : j < row.length
  · rw [if_pos hj, if_pos (by rw [List.length_set]; exact hj), List.set_set]
  · rw [if_neg hj]
    have hX : (row ++ List.replicate (j - row.length) "").length = j := by
      simp only [List.length_append, List.length_replicate]
      omega
    have hlen : ((row ++ List.replicate (j - row.length) "") ++ [v]).length
        = j + 1 := by
      simp only [List.length_append, hX, List.length_cons, List.length_nil]
    rw [if_pos (by rw [hlen]; omega)]
    calc ((row ++ List.replicate (j - row.length) "") ++ [v]).set j v
        = ((row ++ List.replicate (j - row.length) "") ++ v :: []).set
            (row ++ List.replicate (j - row.length) "").length v := by rw [hX]
      _ = (row ++ List.replicate (j - row.length) "") ++ v :: [] :=
          set_append_len _ _ _ _

lemma wimRowMap_idem (company scode : String) (items : List InvItem)
    (row0 : List String) (row : List String) :
    wimRowMap company scode items row0 (wimRowMap company scode items row0 row)
      = wimRowMap company scode items row0 row := by
  conv_lhs => rw [wimRowMap, wimRowMatch_rowMap]
  cases hfind : items.find? (wimRowMatch company scode (wimHeader row0) row) with
  | none => rfl
  | some it =>
    have hrow : wimRowMap company scode items row0 row
        = setCellInRow row (wimInvCol row0 + 1) (fmt2 it.q) := by
      unfold wimRowMap
      rw [hfind]
    rw [hrow]
    exact setCellInRow_idem row (wimInvCol row0) (fmt2 it.q)

/-- The batch of updates one reconciliation pass issues over a sheet. -/
def wimUpdatesOf (company scode : String) (items : List InvItem) :
    List (List String) → List (Nat × Nat × String)
  | [] => []
  | row0 :: rest =>
    wimScan company scode items (wimHeader row0) (wimInvCol row0) rest 2

lemma fmt2_five : fmt2 5 = "5.00" := by
  have h : roundHalfEven ((5 : ℚ) * 100) = 500 := by norm_num [roundHalfEven]
  show fmt2Scaled (roundHalfEven (5 * 100)) = "5.00"
  rw [h]
  rfl

/-- The challan ledger used for the C2 counterexample: two rows identical in
    firm, supplier, challan number and description, both unmarked. -/
def c2state : List (List String) :=
  [["Firm", "Supplier Code", "Challan_Number", "Description", "INVOICE_MTR"],
   ["F", "S", "1", "cloth", ""],
   ["F", "S", "1", "cloth", ""]]

/-- The single invoice item matching both rows of c2state. -/
def c2items : List InvItem := [⟨"1", "cloth", "s", 5, 1, 5⟩]

/-- C2 counterexample.  The scan loops over rows and breaks over items, not
    the other way around: with one invoice item and two identical unmarked
    challan rows, the pass marks BOTH rows with 5.00, where the claim
    requires only the first matching row to be marked and the second to
    keep its empty INVOICE_MTR. -/
theorem C2_counterexample :
    write_invoice_mtr_to_challan "F" "S" c2items c2state
      = [["Firm", "Supplier Code", "Challan_Number", "Description", "INVOICE_MTR"],
         ["F", "S", "1", "cloth", fmt2 5],
         ["F", "S", "1", "cloth", fmt2 5]] ∧
    fmt2 5 = "5.00" :=
  ⟨rfl, fmt2_five⟩

/-- C2 amended.  The pass rewrites the stored header (when the INVOICE_MTR
    column is missing) and transforms every data row independently: each row
    whose Firm and Supplier Code cells equal the arguments and whose trimmed
    Challan_Number and Description cells equal those of some item - with no
    regard to the current INVOICE_MTR content - gets the first such item's
    quantity at two decimals written into its INVOICE_MTR cell, and every
    other row is left unchanged.  Unlike the claim, all matching rows are
    marked, not just the first, and already-marked rows are overwritten. -/
theorem C2_amended (company scode : String) (items : List InvItem)
    (row0 : List String) (rest : List (List String)) :
    write_invoice_mtr_to_challan company scode items (row0 :: rest)
      = wimHeaderOut row0 :: rest.map (wimRowMap company scode items row0) :=
  wim_eq_map company scode items row0 rest

/-- A one-row unmarked ledger for the C3 counterexample. -/
def c3state : List (List String) :=
  [["Firm", "Supplier Code", "Challan_Number", "Description", "INVOICE_MTR"],
   ["F", "S", "1", "cloth", ""]]

/-- C3 counterexample.  After a first pass has marked the only matching row
    with 5.00 (a non-empty marker), a second pass with the same arguments
    still issues a batch update for that very row: it does write to a row
    whose INVOICE_MTR is already non-empty, contradicting the claim. -/
theorem C3_counterexample :
    wimUpdatesOf "F" "S" c2items
        (write_invoice_mtr_to_challan "F" "S" c2items c3state)
      = [(2, 5, fmt2 5)] ∧
    (write_invoice_mtr_to_challan "F" "S" c2items c3state).getD 1 []
      = ["F", "S", "1", "cloth", fmt2 5] ∧
    fmt2 5 ≠ "" := by
  refine ⟨rfl, rfl, ?_⟩
  rw [fmt2_five]
  decide

/-- C3 amended.  Although the second pass re-issues writes to rows whose
    marker is already set, every such write stores the identical value the
    first pass stored, so reconciliation is idempotent on the ledger state:
    running the pass twice with the same arguments equals running it once. -/
theorem C3_amended (company scode : String) (items : List InvItem)
    (vals : List (List String)) :
    write_invoice_mtr_to_challan company scode items
        (write_invoice_mtr_to_challan company scode items vals)
      = write_invoice_mtr_to_challan company scode items vals := by
  cases vals with
  | nil => rfl
  | cons row0 rest =>
    rw [wim_eq_map company scode items row0 rest]
    rw [wim_eq_map company scode items (wimHeaderOut row0)
      (rest.map (wimRowMap company scode items row0))]
    have hH : wimHeaderOut (wimHeaderOut row0) = wimHeaderOut row0 := by
      show (if wimHasMtr (wimHeaderOut row0) then wimHeaderOut row0
        else wimHeader (wimHeaderOut row0)) = wimHeaderOut row0
      rw [if_pos (wimHasMtr_headerOut row0)]
    have hg : wimRowMap company scode items (wimHeaderOut row0)
        = wimRowMap company scode items row0 := by
      funext r
      unfold wimRowMap
      rw [wimHeader_headerOut, wimInvCol_headerOut]
    rw [hH, hg, List.map_map]
    congr 1
    apply List.map_congr_left
    intro row hrow
    exact wimRowMap_idem company scode items row0 row

/-! ## Schema normalizer (CANON_KEYS, KEY_SYNONYMS, load_challan_rows,
app.py lines 226-276).  Normalized records are association lists in
insertion order, as Python dicts are. -/

/-- The closed canonical field set. -/
def CANON_KEYS : List String :=
  ["Firm", "Supplier Code", "Challan_Number", "INVOICE_MTR", "Description",
   "Qty", "MTR", "Rate", "Amount", "Taxable_Amount"]

/-- _norm_key: lowercase, then keep only ASCII letters and digits. -/
def _norm_key (s : String) : String :=
  String.mk ((plower s).data.filter
    (fun c => ('a' ≤ c && c ≤ 'z') || ('0' ≤ c && c ≤ '9')))

/-- KEY_SYNONYMS in its declared scan order. -/
def KEY_SYNONYMS : List (String × List String) :=
  [("Firm", ["firm", "company", "companyname"]),
   ("Supplier Code", ["suppliercode", "partycode", "supplier_code", "supplier"]),
   ("Challan_Number", ["challanno", "challan_no", "challannumber", "challan"]),
   ("INVOICE_MTR", ["invoice_mtr", "invoicemtr", "invoicemeter"]),
   ("Description", ["description", "desc", "productname", "item", "particulars"]),
   ("Qty", ["qty", "quantity", "qnt", "meter", "metre", "meters", "mtrs",
     "mtr_qty"]),
   ("MTR", ["mtr", "meter", "metre", "meters", "qty"]),
   ("Rate", ["rate", "price", "per", "perunit", "per_mtr"]),
   ("Amount", ["amount", "amt", "total", "subtotal", "grandtotal"]),
   ("Taxable_Amount", ["taxable_amount", "taxableamount", "line_total",
     "linetotal", "totalamount"])]

/-- The canonical key a raw header maps to: the first synonym row whose
    normalized spellings include the normalized header, if any. -/
def findCanon (h : String) : Option String :=
  (KEY_SYNONYMS.find?
    (fun p => ((p.1 :: p.2).map _norm_key).contains (_norm_key h))).map
    (fun p => p.1)

/-- Dict lookup on an association list (first entry wins, as keys stay
    unique under recInsert). -/
def recLookup (rec : List (String × String)) (k : String) : Option String :=
  (rec.find? (fun p => p.1 == k)).map (fun p => p.2)

/-- Dict assignment rec[k] = v: replace an existing key in place, else
    append the binding. -/
def recInsert (rec : List (String × String)) (k v : String) :
    List (String × String) :=
  if rec.any (fun p => p.1 == k) then
    rec.map (fun p => if p.1 == k then (k, v) else p)
  else rec ++ [(k, v)]

/-- One normalized record: fold the cells through the canonical map (cells
    beyond the header length are skipped, as the break does), then default
    every canonical key to the empty string. -/
def buildRec (raw_header : List String) (r : List String) :
    List (String × String) :=
  let base := r.enum.foldl
    (fun rec p =>
      if raw_header.length ≤ p.1 then rec
      else
        match findCanon (raw_header.getD p.1 "") with
        | some canon => recInsert rec canon p.2
        | none => rec) []
  CANON_KEYS.foldl
    (fun rec ck =>
      if (recLookup rec ck).isSome then rec else rec ++ [(ck, "")]) base

/-- load_challan_rows: normalize every data row that has a non-empty cell;
    an empty table yields no rows. -/
def load_challan_rows (values : List (List String)) :
    List (List (String × String)) :=
  match values with
  | [] => []
  | hdr :: rest =>
    rest.filterMap (fun r =>
      if r.any (fun cell => cell != "") then some (buildRec hdr r) else none)

lemma findCanon_mem (h c : String) (hc : findCanon h = some c) :
    c ∈ CANON_KEYS := by
  unfold findCanon at hc
  cases hfind : KEY_SYNONYMS.find?
      (fun p => ((p.1 :: p.2).map _norm_key).contains (_norm_key h)) with
  | none => rw [hfind] at hc; simp at hc
  | some p =>
    rw [hfind] at hc
    have hc2 : p.1 = c := by simpa using hc
    have hp := List.mem_of_find?_eq_some hfind
    have hmap : c ∈ KEY_SYNONYMS.map (fun p => p.1) :=
      hc2 ▸ List.mem_map_of_mem _ hp
    have hck : KEY_SYNONYMS.map (fun p => p.1) = CANON_KEYS := rfl
    rw [hck] at hmap
    exact hmap

lemma recInsert_keys (rec : List (String × String)) (k v : String)
    (hrec : ∀ p ∈ rec, p.1 ∈ CANON_KEYS) (hk : k ∈ CANON_KEYS) :
    ∀ p ∈ recInsert rec k v, p.1 ∈ CANON_KEYS := by
  intro p hp
  unfold recInsert at hp
  by_cases hany : rec.any (fun q => q.1 == k) = true
  · rw [if_pos hany] at hp
    obtain ⟨q, hq, hqe⟩ := List.mem_map.mp hp
    by_cases h1 : q.1 == k
    · rw [if_pos h1] at hqe
      rw [← hqe]
      exact hk
    · rw [if_neg h1] at hqe
      rw [← hqe]
      exact hrec q hq
  · rw [if_neg hany] at hp
    rcases List.mem_append.mp hp with h | h
    · exact hrec p h
    · have : p = (k, v) := by simpa using h
      rw [this]
      exact hk

lemma base_fold_keys (hdr : List String) :
    ∀ (l : List (Nat × String)) (rec : List (String × String)),
      (∀ p ∈ rec, p.1 ∈ CANON_KEYS) →
      ∀ p ∈ l.foldl
        (fun rec q =>
          if hdr.length ≤ q.1 then rec
          else
            match findCanon (hdr.getD q.1 "") with
            | some canon => recInsert rec canon q.2
            | none => rec) rec, p.1 ∈ CANON_KEYS := by
  intro l
  induction l with
  | nil => intro rec hrec; exact hrec
  | cons q l ih =>
    intro rec hrec
    rw [List.foldl_cons]
    apply ih
    by_cases hq : hdr.length ≤ q.1
    · rw [if_pos hq]; exact hrec
    · rw [if_neg hq]
      cases hfc : findCanon (hdr.getD q.1 "") with
      | none => exact hrec
      | some canon =>
        exact recInsert_keys rec canon q.2 hrec (findCanon_mem _ _ hfc)

lemma find?_append_some {α : Type} (p : α → Bool) (l1 l2 : List α) (x : α)
    (h : l1.find? p = some x) : (l1 ++ l2).find? p = some x := by
  induction l1 with
  | nil => simp at h
  | cons a l ih =>
    rw [List.cons_append]
    by_cases hpa : p a
    · rw [List.find?_cons_of_pos _ hpa] at h ⊢
      exact h
    · rw [List.find?_cons_of_neg _ hpa] at h ⊢
      exact ih h

lemma find?_append_none {α : Type} (p : α → Bool) (l1 l2 : List α)
    (h : l1.find? p = none) : (l1 ++ l2).find? p = l2.find? p := by
  induction l1 with
  | nil => rfl
  | cons a l ih =>
    rw [List.cons_append]
    by_cases hpa : p a
    · rw [List.find?_cons_of_pos _ hpa] at h
      simp at h
    · rw [List.find?_cons_of_neg _ hpa] at h ⊢
      exact ih h

lemma recLookup_append_isSome (rec l2 : List (String × String)) (k : String)
    (h : (recLookup rec k).isSome) : (recLookup (rec ++ l2) k).isSome := by
  unfold recLookup at h ⊢
  cases hf : rec.find? (fun p => p.1 == k) with
  | none => rw [hf] at h; simp at h
  | some x =>
    rw [find?_append_some _ _ _ _ hf]
    simp

lemma sd_fold_lookup :
    ∀ (ks : List String) (rec : List (String × String)) (k : String),
      (k ∈ ks ∨ (recLookup rec k).isSome) →
      (recLookup (ks.foldl
        (fun rec ck =>
          if (recLookup rec ck).isSome then rec else rec ++ [(ck, "")]) rec)
        k).isSome := by
  intro ks
  induction ks with
  | nil =>
    intro rec k h
    rcases h with h | h
    · simp at h
    · exact h
  | cons c ks ih =>
    intro rec k h
    rw [List.foldl_cons]
    by_cases hc : (recLookup rec c).isSome
    · rw [if_pos hc]
      apply ih
      rcases h with h | h
      · rcases List.mem_cons.mp h with rfl | h2
        · exact Or.inr hc
        · exact Or.inl h2
      · exact Or.inr h
    · rw [if_neg hc]
      apply ih
      rcases h with h | h
      · rcases List.mem_cons.mp h with rfl | h2
        · right
          unfold recLookup at hc ⊢
          cases hf : rec.find? (fun p => p.1 == k) with
          | some x => rw [find?_append_some _ _ _ _ hf]; simp
          | none =>
            rw [find?_append_none _ _ _ hf]
            simp
        · exact Or.inl h2
      · exact Or.inr (recLookup_append_isSome rec _ k h)

lemma sd_fold_keys :
    ∀ (ks : List String) (rec : List (String × String)),
      (∀ x ∈ ks, x ∈ CANON_KEYS) →
      (∀ p ∈ rec, p.1 ∈ CANON_KEYS) →
      ∀ p ∈ ks.foldl
        (fun rec ck =>
          if (recLookup rec ck).isSome then rec else rec ++ [(ck, "")]) rec,
        p.1 ∈ CANON_KEYS := by
  intro ks
  induction ks with
  | nil => intro rec _ hrec; exact hrec
  | cons c ks ih =>
    intro rec hks hrec
    rw [List.foldl_cons]
    apply ih _ (fun x hx => hks x (List.mem_cons_of_mem c hx))
    by_cases hc : (recLookup rec c).isSome
    · rw [if_pos hc]; exact hrec
    · rw [if_neg hc]
      intro p hp
      rcases List.mem_append.mp hp with h | h
      · exact hrec p h
      · have : p = (c, "") := by simpa using h
        rw [this]
        exact hks c (List.mem_cons_self c ks)

lemma buildRec_keys (hdr r : List String) :
    ∀ p ∈ buildRec hdr r, p.1 ∈ CANON_KEYS := by
  unfold buildRec
  apply sd_fold_keys
  · intro x hx; exact hx
  · exact base_fold_keys hdr r.enum [] (by intro p hp; simp at hp)

lemma buildRec_canon (hdr r : List String) :
    ∀ ck ∈ CANON_KEYS, (recLookup (buildRec hdr r) ck).isSome := by
  intro ck hck
  unfold buildRec
  exact sd_fold_lookup CANON_KEYS _ ck (Or.inl hck)

lemma recLookup_isSome_mem (rec : List (String × String)) (k : String)
    (hkeys : ∀ p ∈ rec, p.1 ∈ CANON_KEYS)
    (h : (recLookup rec k).isSome) : k ∈ CANON_KEYS := by
  unfold recLookup at h
  cases hf : rec.find? (fun p => p.1 == k) with
  | none => rw [hf] at h; simp at h
  | some p =>
    have hp := List.find?_some hf
    have hmem := List.mem_of_find?_eq_some hf
    have : p.1 = k := eq_of_beq hp
    rw [← this]
    exact hkeys p hmem

lemma recInsert_mem (rec : List (String × String)) (k v : String) :
    ∀ p ∈ recInsert rec k v, p.1 = k ∨ p ∈ rec := by
  intro p hp
  unfold recInsert at hp
  by_cases hany : rec.any (fun q => q.1 == k) = true
  · rw [if_pos hany] at hp
    obtain ⟨q, hq, hqe⟩ := List.mem_map.mp hp
    by_cases h1 : q.1 == k
    · rw [if_pos h1] at hqe
      left
      rw [← hqe]
    · rw [if_neg h1] at hqe
      right
      rw [← hqe]
      exact hq
  · rw [if_neg hany] at hp
    rcases List.mem_append.mp hp with h | h
    · exact Or.inr h
    · left
      have : p = (k, v) := by simpa using h
      rw [this]

lemma base_fold_sourced (hdr r : List String) :
    ∀ (l : List (Nat × String)) (rec : List (String × String)),
      (∀ q ∈ l, (q : Nat × String).1 < r.length) →
      (∀ p ∈ rec, ∃ i, i < r.length ∧ i < hdr.length ∧
        findCanon (hdr.getD i "") = some (p : String × String).1) →
      ∀ p ∈ l.foldl
        (fun rec q =>
          if hdr.length ≤ q.1 then rec
          else
            match findCanon (hdr.getD q.1 "") with
            | some canon => recInsert rec canon q.2
            | none => rec) rec,
        ∃ i, i < r.length ∧ i < hdr.length ∧
          findCanon (hdr.getD i "") = some (p : String × String).1 := by
  intro l
  induction l with
  | nil => intro rec _ hrec; exact hrec
  | cons q l ih =>
    intro rec hl hrec
    rw [List.foldl_cons]
    apply ih _ (fun x hx => hl x (List.mem_cons_of_mem q hx))
    by_cases hq : hdr.length ≤ q.1
    · rw [if_pos hq]
      exact hrec
    · rw [if_neg hq]
      cases hfc : findCanon (hdr.getD q.1 "") with
      | none => exact hrec
      | some canon =>
        intro p hp
        rcases recInsert_mem rec canon q.2 p hp with h | h
        · exact ⟨q.1, hl q (List.mem_cons_self q l), not_le.mp hq,
            by rw [h]; exact hfc⟩
        · exact hrec p h

lemma sd_fold_preserve :
    ∀ (ks : List String) (rec : List (String × String)) (k v : String),
      recLookup rec k = some v →
      (recLookup (ks.foldl
        (fun rec ck =>
          if (recLookup rec ck).isSome then rec else rec ++ [(ck, "")]) rec)
        k) = some v := by
  intro ks
  induction ks with
  | nil => intro rec k v h; exact h
  | cons c ks ih =>
    intro rec k v h
    rw [List.foldl_cons]
    apply ih
    by_cases hc : (recLookup rec c).isSome
    · rw [if_pos hc]
      exact h
    · rw [if_neg hc]
      unfold recLookup at h ⊢
      cases hf : rec.find? (fun p => p.1 == k) with
      | none => rw [hf] at h; simp at h
      | some p =>
        rw [find?_append_some _ _ _ _ hf]
        rw [hf] at h
        exact h

lemma sd_fold_default :
    ∀ (ks : List String) (rec : List (String × String)) (k : String),
      k ∈ ks → recLookup rec k = none →
      (recLookup (ks.foldl
        (fun rec ck =>
          if (recLookup rec ck).isSome then rec else rec ++ [(ck, "")]) rec)
        k) = some "" := by
  intro ks
  induction ks with
  | nil => intro rec k hk; simp at hk
  | cons c ks ih =>
    intro rec k hk hnone
    have hfn : rec.find? (fun p => p.1 == k) = none := by
      unfold recLookup at hnone
      cases hf : rec.find? (fun p => p.1 == k) with
      | none => rfl
      | some p => rw [hf] at hnone; simp at hnone
    rw [List.foldl_cons]
    by_cases hck : k = c
    · subst hck
      have hc : ¬ (recLookup rec k).isSome = true := by
        rw [hnone]
        simp
      rw [if_neg hc]
      apply sd_fold_preserve
      unfold recLookup
      rw [find?_append_none _ _ _ hfn]
      rw [List.find?_cons_of_pos _ (by simp)]
      rfl
    · have hk2 : k ∈ ks := by
        rcases List.mem_cons.mp hk with h | h
        · exact absurd h hck
        · exact h
      apply ih _ _ hk2
      by_cases hc : (recLookup rec c).isSome
      · rw [if_pos hc]
        exact hnone
      · rw [if_neg hc]
        unfold recLookup
        rw [find?_append_none _ _ _ hfn]
        rw [List.find?_cons_of_neg _ (by
          simp only [beq_iff_eq]
          exact Ne.symm hck)]
        rfl

lemma recLookup_none_of_unsourced (hdr r : List String) (ck : String)
    (hns : ¬ ∃ i, i < r.length ∧ i < hdr.length ∧
      findCanon (hdr.getD i "") = some ck) :
    recLookup (r.enum.foldl
      (fun rec q =>
        if hdr.length ≤ q.1 then rec
        else
          match findCanon (hdr.getD q.1 "") with
          | some canon => recInsert rec canon q.2
          | none => rec) []) ck = none := by
  unfold recLookup
  cases hf : (r.enum.foldl
      (fun rec q =>
        if hdr.length ≤ q.1 then rec
        else
          match findCanon (hdr.getD q.1 "") with
          | some canon => recInsert rec canon q.2
          | none => rec) []).find? (fun p => p.1 == ck) with
  | none => rfl
  | some p =>
    exfalso
    have hmem := List.mem_of_find?_eq_some hf
    have hpm := List.find?_some hf
    have hkey : p.1 = ck := eq_of_beq hpm
    have henum : ∀ q ∈ r.enum, (q : Nat × String).1 < r.length := by
      intro q hq
      have h2 := List.mem_enum_iff_getElem?.mp hq
      by_contra hlt
      rw [List.getElem?_eq_none (le_of_not_lt hlt)] at h2
      simp at h2
    have hsrc := base_fold_sourced hdr r r.enum []
      henum (by intro p hp; simp at hp) p hmem
    rw [hkey] at hsrc
    exact hns hsrc

/-- C8. Every record load_challan_rows returns carries exactly the closed
    canonical key set: each of the ten canonical keys is present, no key
    outside the canonical set - e.g. from an unmapped source column - ever
    appears, and the record comes from a header and data row such that every
    canonical key no source column of that row feeds holds exactly the
    empty-string default. -/
theorem C8_normalizer_closed (values : List (List String))
    (rec : List (String × String)) (hrec : rec ∈ load_challan_rows values) :
    (∀ ck ∈ CANON_KEYS, (recLookup rec ck).isSome) ∧
    (∀ k, (recLookup rec k).isSome → k ∈ CANON_KEYS) ∧
    (∃ hdr rest r, values = hdr :: rest ∧ r ∈ rest ∧ rec = buildRec hdr r ∧
      ∀ ck ∈ CANON_KEYS,
        (¬ ∃ i, i < r.length ∧ i < hdr.length ∧
          findCanon (hdr.getD i "") = some ck) →
        recLookup rec ck = some "") := by
  unfold load_challan_rows at hrec
  cases values with
  | nil => simp at hrec
  | cons hdr rest =>
    obtain ⟨r, hr, hsome⟩ := List.mem_filterMap.mp hrec
    have hb : rec = buildRec hdr r := by
      by_cases hany : r.any (fun cell => cell != "") = true
      · rw [if_pos hany] at hsome
        exact (Option.some_inj.mp hsome).symm
      · rw [if_neg hany] at hsome
        simp at hsome
    refine ⟨?_, ?_, ?_⟩
    · intro ck hck
      rw [hb]
      exact buildRec_canon hdr r ck hck
    · intro k hk
      rw [hb] at hk
      exact recLookup_isSome_mem _ _ (buildRec_keys hdr r) hk
    · refine ⟨hdr, rest, r, rfl, hr, hb, ?_⟩
      intro ck hck hns
      rw [hb]
      unfold buildRec
      exact sd_fold_default CANON_KEYS _ ck hck
        (recLookup_none_of_unsourced hdr r ck hns)

/-- Witness for C8 on a concrete table: headers Firm, Meter (a Qty synonym)
    and Junk (unmapped), one data row. -/
theorem C8_normalizer_closed_witness :
    (∀ ck ∈ CANON_KEYS,
      (recLookup (buildRec ["Firm", "Meter", "Junk"] ["F", "7", "z"])
        ck).isSome) ∧
    (∀ k, (recLookup (buildRec ["Firm", "Meter", "Junk"] ["F", "7", "z"])
        k).isSome → k ∈ CANON_KEYS) ∧
    (∃ hdr rest r,
      [["Firm", "Meter", "Junk"], ["F", "7", "z"]] = hdr :: rest ∧
      r ∈ rest ∧
      buildRec ["Firm", "Meter", "Junk"] ["F", "7", "z"] = buildRec hdr r ∧
      ∀ ck ∈ CANON_KEYS,
        (¬ ∃ i, i < r.length ∧ i < hdr.length ∧
          findCanon (hdr.getD i "") = some ck) →
        recLookup (buildRec ["Firm", "Meter", "Junk"] ["F", "7", "z"]) ck
          = some "") :=
  C8_normalizer_closed [["Firm", "Meter", "Junk"], ["F", "7", "z"]]
    (buildRec ["Firm", "Meter", "Junk"] ["F", "7", "z"]) (by decide)

/-! ## Challan append (REQ_CHALLAN_HEADER, _ensure_challan_header,
append_row_to_challan, app.py lines 316-360). -/

/-- The required challan header columns. -/
def REQ_CHALLAN_HEADER : List String :=
  ["Firm", "Createed_Date", "Invoice_Date", "Challan_Number",
   "supplier_challan_number", "Supplier Code", "Supplier_Name", "Gst_No",
   "Description", "Qty", "Amount", "Taxable_Amount", "INVOICE_MTR", "Rate"]

/-- _ensure_challan_header: write the full header into an empty sheet, else
    append the required columns missing from the existing header (matched
    case-insensitively against the stripped existing names, which are
    computed once, before any append). -/
def _ensure_challan_header (header : List String) : List String :=
  if header.isEmpty then REQ_CHALLAN_HEADER
  else
    header ++ REQ_CHALLAN_HEADER.filter
      (fun col =>
        !((header.map (fun h => plower (pstrip h))).contains (plower col)))

/-- append_row_to_challan: build the appended row for a dict of values -
    blank and invoice_mtr keys are skipped, every other key lands in its
    column when the (ensured) header has one.  Returns the ensured header
    and the appended row. -/
def append_row_to_challan (header0 : List String)
    (row_dict : List (String × String)) : List String × List String :=
  let header := _ensure_challan_header header0
  let row := row_dict.foldl
    (fun row kv =>
      if plower (pstrip kv.1) = "" then row
      else if plower (pstrip kv.1) = "invoice_mtr" then row
      else
        match idx_lower_of header (plower (pstrip kv.1)) with
        | some i => row.set i kv.2
        | none => row)
    (List.replicate header.length "")
  (header, row)

lemma mem_getD_of_mem {α : Type} (l : List α) (x d : α) (h : x ∈ l) :
    ∃ i, i < l.length ∧ l.getD i d = x := by
  obtain ⟨n, hn, hx⟩ := List.mem_iff_getElem.mp h
  refine ⟨n, hn, ?_⟩
  simp only [List.getD_eq_getElem?_getD, List.getElem?_eq_getElem hn,
    Option.getD_some]
  exact hx

lemma ensure_header_mtr (header0 : List String) :
    (idx_lower_of (_ensure_challan_header header0) "invoice_mtr").isSome := by
  unfold _ensure_challan_header
  by_cases h0 : header0.isEmpty
  · rw [if_pos h0]
    exact idx_lower_isSome_of _ _ 12 (by decide) (by decide)
  · rw [if_neg h0]
    by_cases hc : (header0.map (fun h => plower (pstrip h))).contains
        "invoice_mtr"
    · have hmem : "invoice_mtr" ∈ header0.map (fun h => plower (pstrip h)) :=
        List.contains_iff_exists_mem_beq.mp hc |>.elim
          (fun x hx => by
            rcases hx with ⟨hx1, hx2⟩
            rwa [eq_of_beq hx2])
      obtain ⟨y, hy, hyx⟩ := List.mem_map.mp hmem
      obtain ⟨i, hi, hgd⟩ := mem_getD_of_mem header0 y "" hy
      apply idx_lower_isSome_of _ _ i
      · simp only [List.length_append]
        omega
      · have : (header0 ++ REQ_CHALLAN_HEADER.filter
            (fun col =>
              !((header0.map (fun h => plower (pstrip h))).contains
                (plower col)))).getD i "" = y := by
          simp only [List.getD_eq_getElem?_getD, List.getElem?_append_left hi]
          simp only [List.getD_eq_getElem?_getD] at hgd
          exact hgd
        rw [this]
        exact hyx
    · have hkeep : "INVOICE_MTR" ∈ REQ_CHALLAN_HEADER.filter
          (fun col =>
            !((header0.map (fun h => plower (pstrip h))).contains
              (plower col))) := by
        rw [List.mem_filter]
        refine ⟨by decide, ?_⟩
        have : plower "INVOICE_MTR" = "invoice_mtr" := rfl
        rw [this]
        simp only [Bool.not_eq_true] at hc
        simp [List.contains_eq_any_beq] at hc ⊢
        intro x hx hcontra
        exact absurd (hc x hx) (by simp [hcontra])
      have hmem2 : "INVOICE_MTR" ∈ header0 ++ REQ_CHALLAN_HEADER.filter
          (fun col =>
            !((header0.map (fun h => plower (pstrip h))).contains
              (plower col))) := List.mem_append_right _ hkeep
      obtain ⟨i, hi, hgd⟩ := mem_getD_of_mem _ "INVOICE_MTR" "" hmem2
      apply idx_lower_isSome_of _ _ i hi
      rw [hgd]
      rfl

lemma append_row_fold_empty (header : List String)
    (kvs : List (String × String)) :
    ∀ row : List String,
      (∀ j, normHdr (header.getD j "") = "invoice_mtr" → row.getD j "" = "") →
      ∀ j, normHdr (header.getD j "") = "invoice_mtr" →
        (kvs.foldl
          (fun row kv =>
            if plower (pstrip kv.1) = "" then row
            else if plower (pstrip kv.1) = "invoice_mtr" then row
            else
              match idx_lower_of header (plower (pstrip kv.1)) with
              | some i => row.set i kv.2
              | none => row) row).getD j "" = "" := by
  induction kvs with
  | nil => intro row hrow j hj; exact hrow j hj
  | cons kv kvs ih =>
    intro row hrow j hj
    rw [List.foldl_cons]
    apply ih _ _ j hj
    intro j2 hj2
    by_cases h1 : plower (pstrip kv.1) = ""
    · rw [if_pos h1]; exact hrow j2 hj2
    · rw [if_neg h1]
      by_cases h2 : plower (pstrip kv.1) = "invoice_mtr"
      · rw [if_pos h2]; exact hrow j2 hj2
      · rw [if_neg h2]
        cases hidx : idx_lower_of header (plower (pstrip kv.1)) with
        | none => exact hrow j2 hj2
        | some i =>
          have hspec := idx_lower_of_spec _ _ _ hidx
          have hne : i ≠ j2 := by
            intro he
            rw [he] at hspec
            exact h2 (hspec.2.symm.trans hj2)
          have hgoal : (row.set i kv.2).getD j2 "" = row.getD j2 "" := by
            simp only [List.getD_eq_getElem?_getD]
            rw [List.getElem?_set_ne hne]
          rw [hgoal]
          exact hrow j2 hj2

/-- C10. The appended-challan row builder: the ensured header always has an
    invoice_mtr column, and the built row holds the empty string in every
    invoice_mtr column - a dict key spelling invoice_mtr in any letter case
    is skipped, and no other key can address that column - so every newly
    appended challan row starts with an empty invoiced-quantity marker. -/
theorem C10_append_never_marks (header0 : List String)
    (row_dict : List (String × String)) :
    (idx_lower_of (_ensure_challan_header header0) "invoice_mtr").isSome ∧
    ∀ j, normHdr ((_ensure_challan_header header0).getD j "") = "invoice_mtr" →
      (append_row_to_challan header0 row_dict).2.getD j "" = "" := by
  refine ⟨ensure_header_mtr header0, ?_⟩
  intro j hj
  unfold append_row_to_challan
  apply append_row_fold_empty _ _ _ _ j hj
  intro j2 _
  simp only [List.getD_eq_getElem?_getD, List.getElem?_replicate]
  by_cases hlt : j2 < (_ensure_challan_header header0).length
  · rw [if_pos hlt]
    rfl
  · rw [if_neg hlt]
    rfl
